import Mathlib

/-!
Verification of the ftl functional-composition core: the `eitherT` monad
transformer (src/include/ftl/either_trans.h) and the `lazy` memoized cell
(src/include/ftl/lazy.h), shallowly embedded in Lean 4.

The base monad `M` of the transformer is modelled as an explicit operations
record `MonadOps` over a type constructor `m : Type → Type`; the C++
`re_parametrise<M,U>` machinery is subsumed by ordinary type application
`m U`. Generic statements that need the monad laws of `M` take a
`MonadLaws` hypothesis; the identity monad `idM` and the reader/function
monad `fnM` discharge it concretely.

The lazy cell is embedded with explicit state passing: a heap of shared
memo cells indexed by `Nat` (modelling the `std::shared_ptr` cell: a copy
of a handle is the same index); the heap additionally carries, per cell, an
instrumentation counter of generator invocations, modelling the external
side-effect counter the specification's memoization properties speak of.
-/

namespace ftl

/-- Modelled from the spec: the Either collaborator (`either.h` is not under
src/). A two-case tagged value, exactly one of Left(L) or Right(R) active,
immutable once built; truthiness reflects the Right (success) case. -/
inductive either (L : Type) (R : Type) where
  | left : L → either L R
  | right : R → either L R
deriving DecidableEq, Repr

/-- Modelled from the spec: either's functorial map (`f % e`), applying `f`
only to a Right payload; a Left payload propagates unchanged. -/
def either.emap {L R U : Type} (f : R → U) : either L R → either L U
  | either.left l => either.left l
  | either.right r => either.right (f r)

/-- Modelled from the spec: either's monadic bind (`e >>= f`); Left
short-circuits, Right applies the continuation. -/
def either.ebind {L R U : Type} : either L R → (R → either L U) → either L U
  | either.left l, _ => either.left l
  | either.right r, f => f r

/-- The operations of a base monad `M`, the "boundary contract" the
transformer assumes of the wrapped monad: `pure`, `map` and `bind`. -/
structure MonadOps (m : Type → Type) where
  pure : {α : Type} → α → m α
  map : {α β : Type} → (α → β) → m α → m β
  bind : {α β : Type} → m α → (α → m β) → m β

/-- The monad laws the boundary contract requires of a wrapped monad,
as far as the claims below need them. -/
structure MonadLaws {m : Type → Type} (M : MonadOps m) : Prop where
  pure_bind : ∀ {α β : Type} (a : α) (f : α → m β), M.bind (M.pure a) f = f a
  map_pure : ∀ {α β : Type} (f : α → β) (a : α), M.map f (M.pure a) = M.pure (f a)

/-- The identity monad: simplest lawful instantiation of the boundary
contract, used to witness the generic theorems. -/
def idM : MonadOps (fun α => α) where
  pure := fun a => a
  map := fun f a => f a
  bind := fun a f => f a

theorem idM_laws : MonadLaws idM := by
  constructor <;> intros <;> rfl

/-- The function (reader) monad over an argument type `σ`, modelling ftl's
`function<T, σ>` base monad used by the spec's bind-shape test. -/
def fnM (σ : Type) : MonadOps (fun α => σ → α) where
  pure := fun a _ => a
  map := fun f g x => f (g x)
  bind := fun g f x => f (g x) x

theorem fnM_laws (σ : Type) : MonadLaws (fnM σ) := by
  constructor <;> intros <;> rfl

/-- `eitherT<L,M>`: wraps one value of the transformed type
`Met = re_parametrise<M, either<L,T>>`, i.e. `m (either L T)`. The
structure constructor models `eitherT`'s explicit constructor from a `Met`
value; the field `run` models `operator*` / `operator->` (unwrapping the
inner transformed monad). -/
structure eitherT (L : Type) (m : Type → Type) (T : Type) where
  run : m (either L T)

/-- `monad<eitherT<L,M>>::pure`: embeds `t` as `Right(t)` via M's `pure`. -/
def eitherT.pure {L T : Type} {m : Type → Type} (M : MonadOps m) (t : T) :
    eitherT L m T :=
  ⟨M.pure (either.right t)⟩

/-- `monad<eitherT<L,M>>::map`: composes either's map with M's map,
`[f](either e){ return f % e; } % *e`. -/
def eitherT.map {L T U : Type} {m : Type → Type} (M : MonadOps m)
    (f : T → U) (e : eitherT L m T) : eitherT L m U :=
  ⟨M.map (fun ev => either.emap f ev) e.run⟩

/-- `bind_helper<eitherT<L,M2>>::bind`, the transformer shape (normal
case): `*e >>= λ ev. if ev then *f(*ev) else pure(make_left(ev.left()))`. -/
def eitherT.bindT {L T U : Type} {m : Type → Type} (M : MonadOps m)
    (e : eitherT L m T) (f : T → eitherT L m U) : eitherT L m U :=
  ⟨M.bind e.run (fun ev =>
    match ev with
    | either.right t => (f t).run
    | either.left l => M.pure (either.left l))⟩

/-- `bind_helper<M2>::bind` for `M2 = re_parametrise<M,U>`, the automatic
lift shape: `*e >>= λ ev. if ev then aPure<either<L,U>>() % f(*ev) else
pure(make_left(ev.left()))`, where `aPure` wraps each produced `U` as
`Right` under M's map. -/
def eitherT.bindL {L T U : Type} {m : Type → Type} (M : MonadOps m)
    (e : eitherT L m T) (f : T → m U) : eitherT L m U :=
  ⟨M.bind e.run (fun ev =>
    match ev with
    | either.right t => M.map (fun u => either.right u) (f t)
    | either.left l => M.pure (either.left l))⟩

/-- `bind_helper<either<L,U>>::bind`, the automatic hoist shape:
`e >>= λ t. eT<U>{ pure(make_right<L>(t) >>= f) }` — the outer `>>=` is the
transformer-shape bind, the inner one either's bind. -/
def eitherT.bindH {L T U : Type} {m : Type → Type} (M : MonadOps m)
    (e : eitherT L m T) (f : T → either L U) : eitherT L m U :=
  eitherT.bindT M e (fun t => ⟨M.pure (either.ebind (either.right t) f)⟩)

/-- Modelled from the spec: the monoid boundary contract for `L`
(`monoid<L>`: an identity element and an associative append, `^`). -/
structure MonoidOps (L : Type) where
  id : L
  append : L → L → L

/-- `monoidA<eitherT<L,M>>::fail`: embeds a left value of `monoid<L>`'s
identity element with `monad<Met>::pure`. -/
def eitherT.fail {L T : Type} {m : Type → Type} (M : MonadOps m)
    (Mo : MonoidOps L) : eitherT L m T :=
  ⟨M.pure (either.left Mo.id)⟩

/-- `monoidA<eitherT<L,M>>::orDo`:
`*e1 >>= λ ev. if ev then pure(ev) else liftM(λ ev2. if ev2 then ev2 else
make_left(ev.left() ^ ev2.left()), *e2)`, with `liftM` being M's map. -/
def eitherT.orDo {L T : Type} {m : Type → Type} (M : MonadOps m)
    (Mo : MonoidOps L) (e1 e2 : eitherT L m T) : eitherT L m T :=
  ⟨M.bind e1.run (fun ev =>
    match ev with
    | either.right t => M.pure (either.right t)
    | either.left l1 =>
      M.map (fun ev2 =>
        match ev2 with
        | either.right t => either.right t
        | either.left l2 => either.left (Mo.append l1 l2)) e2.run)⟩

/-- Modelled from the spec: `foldable<eitherT<L,M>>::foldl` as the
specification (and the instance's own doc comment) intends it, specialised
to the foldable base monad `M = std::list`: delegate to M's `foldl` with a
combining function that takes the accumulator first and skips every Left
element. The code in src/ has two slips here: `z *me` (a missing comma
turning the two arguments `z, *me` into one ill-formed product) and a
delegate lambda whose parameters are (element, accumulator) where the
instance's own constraint `U == F(U,T)` requires (accumulator, element). -/
def eitherT.foldl {L T U : Type} (f : U → T → U) (z : U)
    (e : eitherT L List T) : U :=
  List.foldl (fun acc ev =>
    match ev with
    | either.right t => f acc t
    | either.left _ => acc) z e.run

/-- Modelled from the spec: `foldable<eitherT<L,M>>::foldr` as intended
(the src/ code has the same missing-comma slip `z *me`), specialised to
`M = std::list`: delegate to M's `foldr`, skipping every Left element. -/
def eitherT.foldr {L T U : Type} (f : T → U → U) (z : U)
    (e : eitherT L List T) : U :=
  List.foldr (fun ev acc =>
    match ev with
    | either.right t => f t acc
    | either.left _ => acc) z e.run

/-- The Right payloads of a list of either values, in order: the elements
the intended foldable instance folds over. -/
def rights {L T : Type} : List (either L T) → List T
  | [] => []
  | either.left _ :: es => rights es
  | either.right t :: es => t :: rights es

/-- `ftl::value_status`: the states a lazy computation can be in. -/
inductive value_status where
  | deferred
  | ready
deriving DecidableEq, Repr

/-- The heap of shared lazy memo cells. A `lazy<T>` handle is an index into
`cell` (copies of a handle are the same index, modelling the shared
`std::shared_ptr` cell); each cell is `either<function<T>,T>`: Left a
not-yet-run zero-argument generator, Right the memoized value. `runs`
instruments, per cell, how many times the cell's generator has been
invoked (the external side-effect counter of the specification), and
`next` is the allocator's fresh index. -/
structure LazyHeap (T : Type) where
  cell : Nat → either (Unit → T) T
  runs : Nat → Nat
  next : Nat

namespace lazy

/-- `lazy<T>::lazy(const function<T>& f)`: allocate a fresh shared cell in
state `Left(f)`; the generator is not invoked. Returns the new handle and
the heap. -/
def construct {T : Type} (g : Unit → T) (σ : LazyHeap T) :
    Nat × LazyHeap T :=
  (σ.next,
   { cell := fun i => if i = σ.next then either.left g else σ.cell i
     runs := fun i => if i = σ.next then 0 else σ.runs i
     next := σ.next + 1 })

/-- `lazy<T>::force`: `if (*val) return;` — a Right cell is left untouched;
otherwise `*val = make_right(val->left()());` — the Left cell's generator
is invoked (once; the instrumentation counter increments) and the cell
transitions to Right(result). Returns the value, as `operator*` does after
forcing. -/
def force {T : Type} (h : Nat) (σ : LazyHeap T) : LazyHeap T × T :=
  match σ.cell h with
  | either.right v => (σ, v)
  | either.left g =>
    ({ cell := fun i => if i = h then either.right (g ()) else σ.cell i
       runs := fun i => if i = h then σ.runs i + 1 else σ.runs i
       next := σ.next }, g ())

/-- `lazy<T>::status`: Right cell reports ready, Left cell deferred;
nothing is forced. -/
def status {T : Type} (h : Nat) (σ : LazyHeap T) : value_status :=
  match σ.cell h with
  | either.right _ => value_status.ready
  | either.left _ => value_status.deferred

/-- `ftl::defer(f, args...)` (unary form): copies the argument at call
time and constructs a cell whose generator is `() => f(copied-arg)`. -/
def defer {A T : Type} (f : A → T) (a : A) (σ : LazyHeap T) :
    Nat × LazyHeap T :=
  construct (fun _ => f a) σ

/-- `monad<lazy<T>>::pure(t)`: constructs a cell whose generator is
`[t](){ return t; }`; the cell starts Left like any other. -/
def pure {T : Type} (t : T) (σ : LazyHeap T) : Nat × LazyHeap T :=
  construct (fun _ => t) σ

/-- `lazy<T>::operator=` (defaulted): `std::shared_ptr` copy assignment —
the left-hand handle is rebound to the right-hand handle's cell; no cell
is read, forced or written. Returns the handle now held by the left-hand
variable, and the (unchanged) heap. -/
def assign {T : Type} (l r : Nat) (σ : LazyHeap T) : Nat × LazyHeap T :=
  (r, σ)

/-- `operator==(const lazy<T>&, const lazy<T>&)`: `return *l1 == *l2;` —
forces both operands, then compares the forced values with T's equality. -/
def eq {T : Type} [DecidableEq T] (h1 h2 : Nat) (σ : LazyHeap T) :
    LazyHeap T × Bool :=
  let p1 := force h1 σ
  let p2 := force h2 p1.1
  (p2.1, decide (p1.2 = p2.2))

end lazy

/-- The eitherT value wrapping `Right(10)` over the base function monad
`function<_, Int>`, input of the spec's bind-shape equivalence test. -/
def e10 : eitherT String (fun α => Int → α) Int :=
  ⟨fun _ => either.right 10⟩

/-- C1: binding the eitherT value wrapping Right(10) over the base function
monad with a hoisted-Either continuation, a lifted-base-monad continuation
and a full-transformer continuation that each add 1 yields, at every input,
the same result: an eitherT wrapping Right(11). -/
theorem bind_shape_equivalence :
    ∀ x : Int,
      (eitherT.bindH (fnM Int) e10 (fun n => either.right (n + 1))).run x
        = either.right 11
    ∧ (eitherT.bindL (fnM Int) e10 (fun n => fun _ => n + 1)).run x
        = either.right 11
    ∧ (eitherT.bindT (fnM Int) e10
        (fun n => ⟨fun _ => either.right (n + 1)⟩)).run x
        = either.right 11 := by
  intro x
  refine ⟨?_, ?_, ?_⟩ <;>
    simp [eitherT.bindH, eitherT.bindT, eitherT.bindL, fnM, e10,
      either.ebind]

/-- C9: wrapping a value of the transformed type `Met` in `eitherT` and
unwrapping with `operator*` yields it unchanged, and conversely; the
wrap/unwrap pair is a round-trip identity that modifies nothing. -/
theorem eitherT_wrap_unwrap :
    ∀ (L T : Type) (m : Type → Type) (mv : m (either L T)),
      (eitherT.mk mv).run = mv
    ∧ ∀ e : eitherT L m T, eitherT.mk e.run = e := by
  intro L T m mv
  exact ⟨rfl, fun _ => rfl⟩

/-- C10: assigning one lazy handle to another only rebinds which cell the
left-hand handle references: the heap — every cell's state and every
invocation counter — is unchanged, nothing is forced, afterwards the
left-hand handle is the right-hand handle's cell, and accessing through it
is exactly accessing the right-hand cell. -/
theorem assign_rebinds {T : Type} (σ : LazyHeap T) (l r : Nat) :
    (lazy.assign l r σ).2 = σ
  ∧ (lazy.assign l r σ).1 = r
  ∧ lazy.status l (lazy.assign l r σ).2 = lazy.status l σ
  ∧ lazy.status r (lazy.assign l r σ).2 = lazy.status r σ
  ∧ (∀ i : Nat, ((lazy.assign l r σ).2).cell i = σ.cell i
      ∧ ((lazy.assign l r σ).2).runs i = σ.runs i)
  ∧ lazy.force (lazy.assign l r σ).1 (lazy.assign l r σ).2
      = lazy.force r σ :=
  ⟨rfl, rfl, rfl, rfl, fun _ => ⟨rfl, rfl⟩, rfl⟩

/-- C7: constructing a lazy value — by the generator constructor, by defer,
or by pure(t) — never invokes its generator (the new cell's invocation
counter is 0 and no other counter moves), and status() reports deferred
until the value is first forced, even for pure(t); after a force, status()
reports ready. -/
theorem construct_deferred {T A : Type} (σ : LazyHeap T) (g : Unit → T)
    (f : A → T) (a : A) (t : T) :
    lazy.status (lazy.construct g σ).1 (lazy.construct g σ).2
      = value_status.deferred
  ∧ ((lazy.construct g σ).2).runs (lazy.construct g σ).1 = 0
  ∧ (∀ i : Nat, ((lazy.construct g σ).2).runs i
      = if i = (lazy.construct g σ).1 then 0 else σ.runs i)
  ∧ lazy.status (lazy.defer f a σ).1 (lazy.defer f a σ).2
      = value_status.deferred
  ∧ ((lazy.defer f a σ).2).runs (lazy.defer f a σ).1 = 0
  ∧ lazy.status (lazy.pure t σ).1 (lazy.pure t σ).2
      = value_status.deferred
  ∧ ((lazy.pure t σ).2).runs (lazy.pure t σ).1 = 0
  ∧ lazy.status (lazy.pure t σ).1
      (lazy.force (lazy.pure t σ).1 (lazy.pure t σ).2).1
      = value_status.ready
  ∧ lazy.status (lazy.construct g σ).1
      (lazy.force (lazy.construct g σ).1 (lazy.construct g σ).2).1
      = value_status.ready := by
  refine ⟨?_, ?_, ?_, ?_, ?_, ?_, ?_, ?_, ?_⟩ <;>
    simp [lazy.construct, lazy.defer, lazy.pure, lazy.status, lazy.force]

/-- C2: for an eitherT value whose Either layer is Left(l), map and all
three bind shapes yield Left(l) unchanged inside the final M-wrapped
result, and the continuation is never invoked: the result is the same for
every continuation. -/
theorem left_short_circuit {m : Type → Type} (M : MonadOps m)
    (H : MonadLaws M) {L T U : Type} (l : L)
    (f : T → U) (g : T → eitherT L m U) (g0 : T → m U)
    (g1 : T → either L U) :
    (eitherT.map M f (⟨M.pure (either.left l)⟩ : eitherT L m T)).run
      = M.pure (either.left l)
  ∧ (eitherT.bindT M (⟨M.pure (either.left l)⟩ : eitherT L m T) g).run
      = M.pure (either.left l)
  ∧ (eitherT.bindL M (⟨M.pure (either.left l)⟩ : eitherT L m T) g0).run
      = M.pure (either.left l)
  ∧ (eitherT.bindH M (⟨M.pure (either.left l)⟩ : eitherT L m T) g1).run
      = M.pure (either.left l)
  ∧ (∀ f2 : T → U,
      eitherT.map M f (⟨M.pure (either.left l)⟩ : eitherT L m T)
        = eitherT.map M f2 ⟨M.pure (either.left l)⟩)
  ∧ (∀ g2 : T → eitherT L m U,
      eitherT.bindT M (⟨M.pure (either.left l)⟩ : eitherT L m T) g
        = eitherT.bindT M ⟨M.pure (either.left l)⟩ g2)
  ∧ (∀ g2 : T → m U,
      eitherT.bindL M (⟨M.pure (either.left l)⟩ : eitherT L m T) g0
        = eitherT.bindL M ⟨M.pure (either.left l)⟩ g2)
  ∧ (∀ g2 : T → either L U,
      eitherT.bindH M (⟨M.pure (either.left l)⟩ : eitherT L m T) g1
        = eitherT.bindH M ⟨M.pure (either.left l)⟩ g2) := by
  refine ⟨?_, ?_, ?_, ?_, ?_, ?_, ?_, ?_⟩ <;>
    simp [eitherT.map, eitherT.bindT, eitherT.bindL, eitherT.bindH,
      eitherT.mk.injEq, H.pure_bind, H.map_pure, either.emap]

/-- Witness for C2 at the identity monad, Left payload "err" and concrete
continuations adding 1. -/
theorem left_short_circuit_witness :
    (eitherT.map idM (fun n : Nat => n + 1)
        (⟨idM.pure (either.left "err")⟩
          : eitherT String (fun α => α) Nat)).run
      = idM.pure (either.left "err")
  ∧ (eitherT.bindT idM
        (⟨idM.pure (either.left "err")⟩ : eitherT String (fun α => α) Nat)
        (fun n => ⟨idM.pure (either.right (n + 1))⟩)).run
      = idM.pure (either.left "err")
  ∧ (eitherT.bindL idM
        (⟨idM.pure (either.left "err")⟩ : eitherT String (fun α => α) Nat)
        (fun n => idM.pure (n + 1))).run
      = idM.pure (either.left "err")
  ∧ (eitherT.bindH idM
        (⟨idM.pure (either.left "err")⟩ : eitherT String (fun α => α) Nat)
        (fun n => either.right (n + 1))).run
      = idM.pure (either.left "err") := by
  have h := left_short_circuit idM idM_laws (T := Nat) "err"
    (fun n => n + 1) (fun n => ⟨idM.pure (either.right (n + 1))⟩)
    (fun n => idM.pure (n + 1)) (fun n => either.right (n + 1))
  exact ⟨h.1, h.2.1, h.2.2.1, h.2.2.2.1⟩

/-- C3: in the lift bind shape (continuation returning the bare base monad
re-parametrised over U): on Right(t), each U the continuation produces is
wrapped Right under M's map before being embedded in M; on Left(l), the
continuation is never invoked and the result is M's pure(Left(l)). -/
theorem bind_lift_spec {m : Type → Type} (M : MonadOps m)
    (H : MonadLaws M) {L T U : Type} (t : T) (l : L) (f : T → m U) :
    (eitherT.bindL M (⟨M.pure (either.right t)⟩ : eitherT L m T) f).run
      = M.map (fun u => either.right u) (f t)
  ∧ (eitherT.bindL M (⟨M.pure (either.left l)⟩ : eitherT L m T) f).run
      = M.pure (either.left l)
  ∧ (∀ f2 : T → m U,
      eitherT.bindL M (⟨M.pure (either.left l)⟩ : eitherT L m T) f
        = eitherT.bindL M ⟨M.pure (either.left l)⟩ f2) := by
  refine ⟨?_, ?_, ?_⟩ <;>
    simp [eitherT.bindL, eitherT.mk.injEq, H.pure_bind]

/-- Witness for C3 at the identity monad: binding Right(7) with the lifted
continuation `n ↦ n + 1` yields Right(8); binding Left("e") yields
Left("e"). -/
theorem bind_lift_spec_witness :
    (eitherT.bindL idM
        (⟨idM.pure (either.right 7)⟩ : eitherT String (fun α => α) Nat)
        (fun n => idM.pure (n + 1))).run = either.right 8
  ∧ (eitherT.bindL idM
        (⟨idM.pure (either.left "e")⟩ : eitherT String (fun α => α) Nat)
        (fun n => idM.pure (n + 1))).run = either.left "e" := by
  have h := bind_lift_spec idM idM_laws (U := Nat) 7 "e"
    (fun n => idM.pure (n + 1))
  exact ⟨h.1, h.2.1⟩

/-- C4: with L a monoid, fail() wraps Left of the monoid identity via M's
pure; orDo returns e1 when its Either layer is Right, otherwise e2's value
when that is Right, and when both are Left it returns Left of the append
of the two left payloads, e1's first. -/
theorem orDo_fail_spec {m : Type → Type} (M : MonadOps m)
    (H : MonadLaws M) {L T : Type} (Mo : MonoidOps L) (t t2 : T)
    (l1 l2 : L) (e2 : eitherT L m T) :
    (eitherT.fail M Mo : eitherT L m T).run = M.pure (either.left Mo.id)
  ∧ (eitherT.orDo M Mo (⟨M.pure (either.right t)⟩ : eitherT L m T)
      e2).run = M.pure (either.right t)
  ∧ (eitherT.orDo M Mo (⟨M.pure (either.left l1)⟩ : eitherT L m T)
      ⟨M.pure (either.right t2)⟩).run = M.pure (either.right t2)
  ∧ (eitherT.orDo M Mo (⟨M.pure (either.left l1)⟩ : eitherT L m T)
      ⟨M.pure (either.left l2)⟩).run
      = M.pure (either.left (Mo.append l1 l2)) := by
  refine ⟨rfl, ?_, ?_, ?_⟩ <;>
    simp [eitherT.orDo, H.pure_bind, H.map_pure]

/-- The concatenation-string monoid: identity "" and append. -/
def stringM : MonoidOps String :=
  ⟨"", String.append⟩

/-- Witness for C4 at the identity monad with the concatenation-string
monoid: orDo of two Lefts "a" and "b" yields Left "ab"; a Right 5 on
either side wins; fail() is Left "". -/
theorem orDo_fail_spec_witness :
    (eitherT.fail idM stringM : eitherT String (fun α => α) Nat).run
      = either.left ""
  ∧ (eitherT.orDo idM stringM
        (⟨either.right 5⟩ : eitherT String (fun α => α) Nat)
        ⟨either.left "b"⟩).run = either.right 5
  ∧ (eitherT.orDo idM stringM
        (⟨either.left "a"⟩ : eitherT String (fun α => α) Nat)
        ⟨either.right 5⟩).run = either.right 5
  ∧ (eitherT.orDo idM stringM
        (⟨either.left "a"⟩ : eitherT String (fun α => α) Nat)
        ⟨either.left "b"⟩).run = either.left "ab" := by
  have h := orDo_fail_spec idM idM_laws stringM (T := Nat) 5 5 "a" "b"
    ⟨either.left "b"⟩
  exact ⟨h.1, h.2.1, h.2.2.1, h.2.2.2⟩

/-- C6: forcing a handle while its cell is Left(gen) invokes the generator
exactly once (the cell's invocation counter increments by one) and
transitions the cell to Right(result); forcing again — from that handle or
from any copy, which is the same cell index — returns the cached value
with no state change and no further invocation; forcing any handle
afterwards leaves the cell Right(result), so it never transitions back to
Left; cells other than the forced one are untouched. -/
theorem force_memoizes {T : Type} (σ : LazyHeap T) (h : Nat)
    (g : Unit → T) (hl : σ.cell h = either.left g) :
    (lazy.force h σ).2 = g ()
  ∧ ((lazy.force h σ).1).cell h = either.right (g ())
  ∧ ((lazy.force h σ).1).runs h = σ.runs h + 1
  ∧ lazy.force h ((lazy.force h σ).1) = ((lazy.force h σ).1, g ())
  ∧ (∀ h2 : Nat, ((lazy.force h2 ((lazy.force h σ).1)).1).cell h
      = either.right (g ()))
  ∧ (∀ i : Nat, i ≠ h → ((lazy.force h σ).1).cell i = σ.cell i
      ∧ ((lazy.force h σ).1).runs i = σ.runs i) := by
  refine ⟨?_, ?_, ?_, ?_, ?_, ?_⟩
  · simp [lazy.force, hl]
  · simp [lazy.force, hl]
  · simp [lazy.force, hl]
  · simp [lazy.force, hl]
  · intro h2
    by_cases hh : h2 = h
    · subst hh
      simp [lazy.force, hl]
    · rcases hc2 : σ.cell h2 with g2 | v2 <;>
        simp [lazy.force, hl, hc2, hh, Ne.symm hh]
  · intro i hi
    simp [lazy.force, hl, hi]

/-- A one-cell heap whose cell 0 is the deferred generator `() => 5`, used
to witness the memoization theorem concretely. -/
def sigL : LazyHeap Nat :=
  { cell := fun _ => either.left (fun _ => 5)
    runs := fun _ => 0
    next := 1 }

/-- Witness for C6 on the concrete heap `sigL`: the first force of handle 0
returns 5 and runs the generator once; a second force returns the same
value and heap. -/
theorem force_memoizes_witness :
    (lazy.force 0 sigL).2 = 5
  ∧ ((lazy.force 0 sigL).1).cell 0 = either.right 5
  ∧ ((lazy.force 0 sigL).1).runs 0 = 0 + 1
  ∧ lazy.force 0 ((lazy.force 0 sigL).1)
      = ((lazy.force 0 sigL).1, 5) := by
  have h := force_memoizes sigL 0 (fun _ => 5) rfl
  exact ⟨h.1, h.2.1, h.2.2.1, h.2.2.2.1⟩

/-- Forcing one handle never changes the value any handle will force to:
the value read through `h2` after a force of `h1` is the value `h2` forces
to in the original heap. -/
theorem force_val_stable {T : Type} (σ : LazyHeap T) (h1 h2 : Nat) :
    (lazy.force h2 (lazy.force h1 σ).1).2 = (lazy.force h2 σ).2 := by
  rcases hc1 : σ.cell h1 with g1 | v1
  · by_cases hh : h2 = h1
    · subst hh
      simp [lazy.force, hc1]
    · rcases hc2 : σ.cell h2 with g2 | v2 <;>
        simp [lazy.force, hc1, hc2, hh]
  · simp [lazy.force, hc1]

/-- A two-cell heap whose cells 0 and 1 are two independent deferred
generators `() => 3`, modelling the spec's `lazy(3) == lazy(3)` with two
independent cells. -/
def sigPair : LazyHeap Nat :=
  { cell := fun _ => either.left (fun _ => 3)
    runs := fun _ => 0
    next := 2 }

/-- C8: operator== forces both operands and returns whether the forced
values are equal — for any two handles, sharing a cell or not; on the
two independent `() => 3` cells it returns true, and each cell's generator
has then run exactly once. -/
theorem lazy_eq_spec :
    (∀ (T : Type) (ds : DecidableEq T) (σ : LazyHeap T) (h1 h2 : Nat),
        (@lazy.eq T ds h1 h2 σ).2 = true
          ↔ (lazy.force h1 σ).2 = (lazy.force h2 σ).2)
  ∧ (lazy.eq 0 1 sigPair).2 = true
  ∧ ((lazy.eq 0 1 sigPair).1).runs 0 = 1
  ∧ ((lazy.eq 0 1 sigPair).1).runs 1 = 1 := by
  refine ⟨?_, by decide, by decide, by decide⟩
  intro T ds σ h1 h2
  simp [lazy.eq, force_val_stable]

/-- The Right payloads of `l`, folded from the left by the intended
delegate lambda, coincide with folding `f` over `rights l`. -/
theorem foldl_filter_eq {L T U : Type} (f : U → T → U) :
    ∀ (l : List (either L T)) (z : U),
      List.foldl (fun acc ev =>
        match ev with
        | either.right t => f acc t
        | either.left _ => acc) z l = List.foldl f z (rights l) := by
  intro l
  induction l with
  | nil => intro z; rfl
  | cons e es ih =>
    intro z
    rcases e with le | t <;> simp [rights, ih]

/-- The Right payloads of `l`, folded from the right by the intended
delegate lambda, coincide with folding `f` over `rights l`. -/
theorem foldr_filter_eq {L T U : Type} (f : T → U → U) :
    ∀ (l : List (either L T)) (z : U),
      List.foldr (fun ev acc =>
        match ev with
        | either.right t => f t acc
        | either.left _ => acc) z l = List.foldr f z (rights l) := by
  intro l
  induction l with
  | nil => intro z; rfl
  | cons e es ih =>
    intro z
    rcases e with le | t <;> simp [rights, ih]

/-- C5 (as intended; the src/ code has the slips noted at
`eitherT.foldl`): foldl and foldr of the eitherT foldable instance fold
only the Right-tagged elements of the wrapped value, delegating to M's
fold with a filter under which a Left contributes the accumulator
unchanged, and foldl's combining function receives the accumulator
first. -/
theorem foldable_skips_lefts :
    ∀ (L T U : Type) (f : U → T → U) (g : T → U → U)
      (l : List (either L T)) (z : U),
      eitherT.foldl f z (⟨l⟩ : eitherT L List T)
        = List.foldl f z (rights l)
    ∧ eitherT.foldr g z (⟨l⟩ : eitherT L List T)
        = List.foldr g z (rights l) := by
  intro L T U f g l z
  exact ⟨foldl_filter_eq f l z, foldr_filter_eq g l z⟩

end ftl
